import Mathlib

/-!
Verification of the IrisNotes note-retrieval core against its specification.

The Rust sources are shallowly embedded here:
* `stripTags`, `decodeEntities`, `collapseCli`, `collapseQuick`, `rustTrim`
  embed the two `strip_html` variants
  (`apps/main/src-tauri/src/cli.rs` and `apps/quick/src-tauri/src/lib.rs`);
* `rustTruncate` embeds `truncate` from `cli.rs` (byte-indexed slicing,
  modelled with `Option`: `none` marks the Rust panic on a non-boundary cut);
* `cliSearchNotes`, `getAllNotes`, `getItemPath`, `selectNote` embed the CLI
  query layer (the SQL over the `items` table is embedded as list processing;
  the external FTS5 tier is an opaque parameter);
* `ftsRows`, `parentMatches`, `quickRows`, `matchType` embed the richer
  union search of the quick app;
* `debounceStep` / `debounceRun` embed the config-watcher debounce loop.

Machine integers do not overflow in any of the embedded paths, so `Nat`/`Int`
are used directly.  ASCII lowercasing models Rust `to_lowercase` and SQLite
`LOWER`/`LIKE` case folding (the sources only rely on ASCII folding).
-/

namespace IrisNotes

/-- The Unicode `White_Space` property, the set used by Rust's
`char::is_whitespace` (and `str::trim`, `split_whitespace`). -/
def rustIsWhitespace (c : Char) : Bool :=
  let n := c.toNat
  n = 0x09 || n = 0x0A || n = 0x0B || n = 0x0C || n = 0x0D || n = 0x20 ||
  n = 0x85 || n = 0xA0 || n = 0x1680 || (0x2000 ≤ n && n ≤ 0x200A) ||
  n = 0x2028 || n = 0x2029 || n = 0x202F || n = 0x205F || n = 0x3000

/-- ASCII lowercase of one character (models Rust `to_lowercase` / SQL
`LOWER` on the ASCII range, the only range the embedded code relies on). -/
def asciiLower (c : Char) : Char :=
  if 'A' ≤ c ∧ c ≤ 'Z' then Char.ofNat (c.toNat + 32) else c

/-- ASCII lowercase of a string. -/
def lowerStr (s : String) : String := ⟨s.data.map asciiLower⟩

/-- Tag-stripping scan of `strip_html`: a bare `<` enters in-tag state until
the next `>`; characters outside a tag are kept. -/
def stripTags : List Char → Bool → List Char
  | [], _ => []
  | c :: rest, inTag =>
    if c = '<' then stripTags rest true
    else if c = '>' then stripTags rest false
    else if inTag then stripTags rest true
    else c :: stripTags rest false

/-- Fuelled core of `str::replace`: leftmost-first, non-overlapping, and the
replacement text is not rescanned.  `fuel ≥ l.length` makes it total. -/
def replaceLF (pat rep : List Char) : Nat → List Char → List Char
  | 0, l => l
  | _ + 1, [] => []
  | fuel + 1, c :: rest =>
    if pat ≠ [] ∧ pat.isPrefixOf (c :: rest) then
      rep ++ replaceLF pat rep fuel ((c :: rest).drop pat.length)
    else
      c :: replaceLF pat rep fuel rest

/-- Rust `str::replace` on character lists. -/
def replaceL (pat rep l : List Char) : List Char := replaceLF pat rep l.length l

/-- The entity-decoding chain of `strip_html`, in source order:
`&nbsp;`, `&amp;`, `&lt;`, `&gt;`, `&quot;`, `&#39;`, `&apos;`. -/
def decodeEntities (l : List Char) : List Char :=
  replaceL "&apos;".data "'".data <|
  replaceL "&#39;".data "'".data <|
  replaceL "&quot;".data "\"".data <|
  replaceL "&gt;".data ">".data <|
  replaceL "&lt;".data "<".data <|
  replaceL "&amp;".data "&".data <|
  replaceL "&nbsp;".data " ".data l

/-- Whitespace collapse of the CLI `strip_html`: a non-newline whitespace
character is dropped when the previous character was non-newline whitespace;
newlines are kept and reset the run. -/
def collapseCli : List Char → Bool → List Char
  | [], _ => []
  | c :: rest, prev =>
    if rustIsWhitespace c ∧ c ≠ '\n' then
      if prev then collapseCli rest true
      else c :: collapseCli rest true
    else c :: collapseCli rest false

/-- Whitespace collapse of the quick-app `strip_html`: every whitespace
character (newlines included) participates in run collapsing. -/
def collapseQuick : List Char → Bool → List Char
  | [], _ => []
  | c :: rest, prev =>
    if rustIsWhitespace c then
      if prev then collapseQuick rest true
      else c :: collapseQuick rest true
    else c :: collapseQuick rest false

/-- Rust `str::trim`: strip whitespace from both ends. -/
def rustTrim (l : List Char) : List Char :=
  (((l.dropWhile rustIsWhitespace).reverse.dropWhile rustIsWhitespace)).reverse

/-- The character-level pipeline of `strip_html` in
`apps/main/src-tauri/src/cli.rs`: strip tags, decode entities, collapse
whitespace (newline-preserving), trim. -/
def cliStripHtmlL (l : List Char) : List Char :=
  rustTrim (collapseCli (decodeEntities (stripTags l false)) false)

/-- `strip_html` of `apps/main/src-tauri/src/cli.rs`. -/
def cliStripHtml (s : String) : String := ⟨cliStripHtmlL s.data⟩

/-- The character-level pipeline of `strip_html` in
`apps/quick/src-tauri/src/lib.rs` (its collapse also merges newlines). -/
def quickStripHtmlL (l : List Char) : List Char :=
  rustTrim (collapseQuick (decodeEntities (stripTags l false)) false)

/-- `strip_html` of `apps/quick/src-tauri/src/lib.rs`. -/
def quickStripHtml (s : String) : String := ⟨quickStripHtmlL s.data⟩

/-- UTF-8 byte length of a character list, as Rust `str::len` measures it. -/
def utf8Len (l : List Char) : Nat := (l.map Char.utf8Size).sum

/-- Rust byte slice `&s[..i]` on a character list: `some` of the prefix when
`i` lands on a character boundary, `none` when the slice panics because `i`
falls inside an encoded character (or past the end). -/
def byteTake : List Char → Nat → Option (List Char)
  | _, 0 => some []
  | [], _ + 1 => none
  | c :: rest, n + 1 =>
    if c.utf8Size ≤ n + 1 then (byteTake rest (n + 1 - c.utf8Size)).map (c :: ·)
    else none

/-- `truncate` of `cli.rs`: returns the string when its byte length is within
`maxLen`, otherwise slices the first `maxLen - 3` bytes (saturating) and
appends `"..."`.  `none` models the Rust panic when the byte cut is not a
character boundary. -/
def rustTruncate (s : String) (maxLen : Nat) : Option String :=
  if utf8Len s.data ≤ maxLen then some s
  else (byteTake s.data (maxLen - 3)).map (fun l => ⟨l ++ "...".data⟩)

/-- The content-preview construction inside the quick app's `search_notes`
row mapper: strip HTML, then take the first 80 bytes with a `"..."` suffix
when longer than 80 bytes, or the `"Empty note"` placeholder when empty.
`none` models the Rust panic of the byte slice `&plain_content[..80]`. -/
def quickPreview (rawContent : String) : Option String :=
  let plain := quickStripHtml rawContent
  if utf8Len plain.data > 80 then
    (byteTake plain.data 80).map (fun l => ⟨l ++ "...".data⟩)
  else if plain = "" then some "Empty note"
  else some plain

/-- A row of the `items` table, the single entity backing notes, sections
and books (`type` is spelled `itemType`; `deleted_at` is the tombstone). -/
structure Item where
  id : String
  title : String
  content : Option String
  itemType : String
  parent_id : Option String
  sort_order : Int
  deleted_at : Option String
deriving Repr, DecidableEq

/-- The `Note` row struct of `cli.rs` (`content` is `unwrap_or_default`ed). -/
structure Note where
  id : String
  title : String
  content : String
  item_type : String
  parent_id : Option String
deriving Repr, DecidableEq

/-- The row mapper shared by the `cli.rs` queries. -/
def toNote (i : Item) : Note :=
  ⟨i.id, i.title, i.content.getD "", i.itemType, i.parent_id⟩

/-- Ordering used by `ORDER BY sort_order`. -/
def itemLe (a b : Item) : Prop := a.sort_order ≤ b.sort_order

instance : DecidableRel itemLe := fun a b => by unfold itemLe; infer_instance

instance : IsTotal Item itemLe := ⟨fun a b => Int.le_total a.sort_order b.sort_order⟩

instance : IsTrans Item itemLe := ⟨fun _ _ _ h h' => Int.le_trans h h'⟩

/-- Fuelled SQLite `LIKE` matcher (default, case-insensitive on ASCII):
`%` matches any sequence, `_` any single character, other pattern characters
match case-insensitively.  `fuel ≥ pattern.length + s.length` suffices. -/
def sqlLikeF : Nat → List Char → List Char → Bool
  | 0, _, _ => false
  | _ + 1, [], s => s.isEmpty
  | fuel + 1, '%' :: pr, s =>
    sqlLikeF fuel pr s ||
      (match s with
       | [] => false
       | _ :: srest => sqlLikeF fuel ('%' :: pr) srest)
  | fuel + 1, '_' :: pr, s =>
    (match s with
     | [] => false
     | _ :: srest => sqlLikeF fuel pr srest)
  | fuel + 1, pc :: pr, s =>
    (match s with
     | [] => false
     | sc :: srest => asciiLower pc = asciiLower sc && sqlLikeF fuel pr srest)

/-- SQLite `s LIKE pattern` with sufficient fuel. -/
def sqlLike (pattern s : List Char) : Bool :=
  sqlLikeF (pattern.length + s.length + 1) pattern s

/-- The `WHERE title LIKE ?1 OR content LIKE ?1` condition of the CLI
fallback tier, with pattern `"%" ++ query ++ "%"`; an SQL `NULL` content
never satisfies `LIKE`. -/
def likeCond (query : String) (i : Item) : Bool :=
  let pat := '%' :: query.data ++ ['%']
  sqlLike pat i.title.data ||
    (match i.content with
     | some c => sqlLike pat c.data
     | none => false)

/-- The rows of the CLI fallback tier: `SELECT ... FROM items WHERE title
LIKE ?1 OR content LIKE ?1 ORDER BY sort_order` — note the absence of any
`deleted_at`, `type` or `LIMIT` clause in the source. -/
def cliFallbackItems (db : List Item) (query : String) : List Item :=
  (List.insertionSort itemLe db).filter (likeCond query)

/-- The CLI fallback tier's result set. -/
def cliFallback (db : List Item) (query : String) : List Note :=
  (cliFallbackItems db query).map toNote

/-- `search_notes` of `cli.rs`: the primary FTS5 tier is external to the
repository, so its outcome (`rank`-ordered rows, or an error) is taken as a
parameter; the two-tier selection logic is the source's `match`. -/
def cliSearchNotes (ftsOutcome : Except String (List Note)) (db : List Item)
    (query : String) : Except String (List Note) :=
  match ftsOutcome with
  | .ok notes => if notes.isEmpty then .ok (cliFallback db query) else .ok notes
  | .error _ => .ok (cliFallback db query)

/-- `get_all_notes` of `cli.rs` (the data source of the `tree` and `list`
commands): `SELECT ... FROM items ORDER BY sort_order`, with no
`deleted_at` filter. -/
def getAllNotes (db : List Item) : List Note :=
  (List.insertionSort itemLe db).map toNote

/-- `SELECT title, parent_id FROM items WHERE id = ?1` via `query_row`:
the first matching row, or `none` (the `QueryReturnedNoRows` error). -/
def lookupTP (db : List Item) (id : String) : Option (String × Option String) :=
  (db.find? (fun r => r.id == id)).map (fun r => (r.title, r.parent_id))

/-- The parent walk of `get_item_path`, root-last as visited; the Rust loop
has no cycle guard, so the walk carries fuel — `db.length + 1` steps cover
every terminating (acyclic) walk, which is the data model's invariant. -/
def pathPartsAux (db : List Item) : Nat → Option String → List String
  | 0, _ => []
  | _ + 1, none => []
  | fuel + 1, some id =>
    match lookupTP db id with
    | none => []
    | some (t, p) => t :: pathPartsAux db fuel p

/-- `get_item_path` of `cli.rs`: walk `parent_id` from `id`, collect titles,
reverse, join with `" / "`. -/
def getItemPath (db : List Item) (id : String) : String :=
  String.intercalate " / " (pathPartsAux db (db.length + 1) (some id)).reverse

/-- The observable report of `select_note`, distinguishing its three exit
styles: silent, the out-of-range index error (`Error: Invalid number N.
Use 1-len`), and the interactive multiple-candidates listing. -/
inductive SelectMsg where
  | silent : SelectMsg
  | invalidNumber (n len : Nat) : SelectMsg
  | multiplePrompt (candidates : List (String × String)) : SelectMsg
deriving Repr, DecidableEq

/-- `select_note` of `cli.rs`: returns the chosen note (if any) together
with what the function reports on the diagnostic stream. -/
def selectNote (notes : List Note) (number : Option Nat) :
    Option Note × SelectMsg :=
  if notes.isEmpty then (none, .silent)
  else if notes.length = 1 then (notes[0]?, .silent)
  else
    match number with
    | some n =>
      if n > 0 ∧ n ≤ notes.length then (notes[n - 1]?, .silent)
      else (none, .invalidNumber n notes.length)
    | none => (none, .multiplePrompt (notes.map (fun nt => (nt.title, nt.id))))

/-- A row produced by one of the two CTEs of the quick app's union search.
`item` carries the joined `items` row; `priority` and `sortRank` are the
CTE's constants/`rank`; the three parent columns come from the two
`LEFT JOIN`s. -/
structure QRow where
  item : Item
  priority : Int
  sortRank : Int
  parentTitle : Option String
  parentType : Option String
  grandTitle : Option String
deriving Repr, DecidableEq

/-- `LEFT JOIN items p ON x.parent_id = p.id`: first row with the id. -/
def findItem (db : List Item) (oid : Option String) : Option Item :=
  oid.bind (fun i => db.find? (fun r => r.id == i))

/-- Assemble a CTE row for item `i` with the given priority and rank. -/
def mkRow (db : List Item) (i : Item) (pri rank : Int) : QRow :=
  let p := findItem db i.parent_id
  let pp := p.bind (fun x => findItem db x.parent_id)
  ⟨i, pri, rank, p.map (·.title), p.map (·.itemType), pp.map (·.title)⟩

/-- The `fts_results` CTE: rows of the external FTS index (`fts i = some
rank` when item `i`'s index entry matches the constructed FTS query)
restricted to non-deleted notes, at priority 1. -/
def ftsRows (db : List Item) (fts : Item → Option Int) : List QRow :=
  (db.filter (fun i =>
      (fts i).isSome && i.itemType == "note" && i.deleted_at == none)).map
    (fun i => mkRow db i 1 ((fts i).getD 0))

/-- The parent/grandparent title condition of the `parent_matches` CTE
(`?2` is the lowercased query; `LOWER(title) LIKE '%' || ?2 || '%'`). -/
def parentCond (db : List Item) (queryLower : String) (i : Item) : Bool :=
  let pat := '%' :: queryLower.data ++ ['%']
  let p := findItem db i.parent_id
  let pp := p.bind (fun x => findItem db x.parent_id)
  (match p with
   | some pr =>
     (pr.itemType == "book" || pr.itemType == "section") &&
       sqlLike pat (lowerStr pr.title).data
   | none => false) ||
  (match pp with
   | some gr => gr.itemType == "book" && sqlLike pat (lowerStr gr.title).data
   | none => false)

/-- The `parent_matches` CTE: non-deleted notes whose container (or
book grandparent) title matches, minus ids already in `fts_results`,
at priority 2 and rank 0. -/
def parentMatches (db : List Item) (queryLower : String)
    (fts : Item → Option Int) : List QRow :=
  (db.filter (fun i =>
      i.itemType == "note" && i.deleted_at == none &&
      parentCond db queryLower i &&
      !((ftsRows db fts).map (·.item.id)).contains i.id)).map
    (fun i => mkRow db i 2 0)

/-- `ORDER BY priority, sort_rank`. -/
def rowLe (a b : QRow) : Prop :=
  a.priority < b.priority ∨ (a.priority = b.priority ∧ a.sortRank ≤ b.sortRank)

instance : DecidableRel rowLe := fun a b => by unfold rowLe; infer_instance

instance : IsTotal QRow rowLe :=
  ⟨fun a b => by unfold rowLe; omega⟩

instance : IsTrans QRow rowLe :=
  ⟨fun a b c h h' => by unfold rowLe at *; omega⟩

/-- The quick app's `search_notes` row set: empty when the constructed FTS
query has no tokens (the Rust short-circuit), otherwise the union of the
two CTEs ordered by `(priority, sort_rank)` and capped by `LIMIT 15`. -/
def quickRows (db : List Item) (query : String) (fts : Item → Option Int) :
    List QRow :=
  if query.data.all rustIsWhitespace then []
  else
    (List.insertionSort rowLe
        (ftsRows db fts ++ parentMatches db (lowerStr query) fts)).take 15

/-- Rust `str::contains` with a string pattern: `needle` occurs as a
contiguous subsequence of `hay` (UTF-8 self-synchronization makes the
byte-level and character-level readings coincide). -/
def containsChars (needle : List Char) : List Char → Bool
  | [] => needle.isEmpty
  | c :: rest => needle.isPrefixOf (c :: rest) || containsChars needle rest

/-- The `match_type` classification of the quick app's row mapper, applied
to a row's priority and `note_title_for_match` with the lowercased query. -/
def matchType (priority : Int) (noteTitle : String) (queryLower : String) :
    String :=
  if priority = 2 then "parent"
  else if containsChars queryLower.data (lowerStr noteTitle).data then "title"
  else "content"

/-- One incoming filesystem event as seen by the debounce worker: the
filename component of the event's first path (if any) and the worker-side
arrival instant in milliseconds. -/
structure FsEvent where
  filename : Option String
  time : Nat
deriving Repr, DecidableEq

/-- The watched-filename predicate of `apps/main/src-tauri/src/lib.rs`
(`config.json` or `config.toml`; the older `src/src-tauri` variant watches
only `config.json`). -/
def watchedMain (f : String) : Bool := f == "config.json" || f == "config.toml"

/-- One iteration of the debounce loop: given `last_event_time`, decide
whether the event emits a `config-file-changed` notification and compute
the new `last_event_time`.  `Instant::duration_since` saturates at zero,
matching `Nat` subtraction. -/
def debounceStep (watched : String → Bool) (lastEmit : Nat) (e : FsEvent) :
    Nat × Bool :=
  match e.filename with
  | none => (lastEmit, false)
  | some f =>
    if watched f then
      if e.time - lastEmit > 100 then (e.time, true) else (lastEmit, false)
    else (lastEmit, false)

/-- Run the debounce loop over an event sequence, counting emissions. -/
def debounceRun (watched : String → Bool) (lastEmit : Nat) :
    List FsEvent → Nat × Nat
  | [] => (lastEmit, 0)
  | e :: rest =>
    let (s, emitted) := debounceStep watched lastEmit e
    let (sfin, count) := debounceRun watched s rest
    (sfin, (if emitted then 1 else 0) + count)

/-- Non-newline whitespace, the character class collapsed by the CLI
`strip_html`. -/
def nnws (c : Char) : Bool := rustIsWhitespace c && c != '\n'

/-- A list whose first and last characters (when present) are not
whitespace — the postcondition of `str::trim`. -/
def noEdgeWs (l : List Char) : Prop :=
  (∀ c, l.head? = some c → rustIsWhitespace c = false) ∧
  (∀ c, l.getLast? = some c → rustIsWhitespace c = false)

/-- The six (seven codes) handled entity sequences. -/
def entityCodes : List String :=
  ["&nbsp;", "&amp;", "&lt;", "&gt;", "&quot;", "&#39;", "&apos;"]

/-! ### Supporting lemmas -/

theorem stripTags_no_angle (l : List Char) (b : Bool) :
    '<' ∉ stripTags l b ∧ '>' ∉ stripTags l b := by
  induction l generalizing b with
  | nil => simp [stripTags]
  | cons c rest ih =>
    simp only [stripTags]
    split_ifs with h1 h2 h3
    · exact ih true
    · exact ih false
    · exact ih true
    · refine ⟨?_, ?_⟩
      · simp only [List.mem_cons, not_or]
        exact ⟨fun hc => h1 hc.symm, (ih false).1⟩
      · simp only [List.mem_cons, not_or]
        exact ⟨fun hc => h2 hc.symm, (ih false).2⟩

theorem stripTags_subset (l : List Char) (b : Bool) :
    ∀ c ∈ stripTags l b, c ∈ l := by
  induction l generalizing b with
  | nil => simp [stripTags]
  | cons c rest ih =>
    intro x hx
    simp only [stripTags] at hx
    split_ifs at hx
    · exact List.mem_cons_of_mem _ (ih true x hx)
    · exact List.mem_cons_of_mem _ (ih false x hx)
    · exact List.mem_cons_of_mem _ (ih true x hx)
    · rcases List.mem_cons.mp hx with rfl | hx'
      · exact List.mem_cons_self _ _
      · exact List.mem_cons_of_mem _ (ih false x hx')

theorem replaceLF_no_amp (pat rep : List Char) (hpat : pat.head? = some '&') :
    ∀ fuel l, '&' ∉ l → replaceLF pat rep fuel l = l := by
  intro fuel
  induction fuel with
  | zero => intro l _; rfl
  | succ n ih =>
    intro l hl
    cases l with
    | nil => rfl
    | cons c rest =>
      obtain ⟨pt, rfl⟩ : ∃ pt, pat = '&' :: pt := by
        cases pat with
        | nil => simp at hpat
        | cons p pt => simp at hpat; exact ⟨pt, by rw [hpat]⟩
      have hc : c ≠ '&' := by
        intro h; exact hl (h ▸ List.mem_cons_self c rest)
      have hpre : ('&' :: pt).isPrefixOf (c :: rest) = false := by
        simp [List.isPrefixOf, Ne.symm hc]
      have hcond : ¬(('&' :: pt) ≠ [] ∧ ('&' :: pt).isPrefixOf (c :: rest) = true) := by
        simp [hpre]
      simp only [replaceLF]
      rw [if_neg hcond]
      exact congrArg (c :: ·) (ih rest (fun h => hl (List.mem_cons_of_mem _ h)))

theorem replaceL_no_amp (pat rep l : List Char) (hpat : pat.head? = some '&')
    (hl : '&' ∉ l) : replaceL pat rep l = l :=
  replaceLF_no_amp pat rep hpat l.length l hl

theorem decodeEntities_no_amp (l : List Char) (hl : '&' ∉ l) :
    decodeEntities l = l := by
  unfold decodeEntities
  rw [replaceL_no_amp "&nbsp;".data " ".data l rfl hl,
    replaceL_no_amp "&amp;".data "&".data l rfl hl,
    replaceL_no_amp "&lt;".data "<".data l rfl hl,
    replaceL_no_amp "&gt;".data ">".data l rfl hl,
    replaceL_no_amp "&quot;".data "\"".data l rfl hl,
    replaceL_no_amp "&#39;".data "'".data l rfl hl,
    replaceL_no_amp "&apos;".data "'".data l rfl hl]

theorem collapseCli_subset (l : List Char) (b : Bool) :
    ∀ c ∈ collapseCli l b, c ∈ l := by
  induction l generalizing b with
  | nil => simp [collapseCli]
  | cons c rest ih =>
    intro x hx
    simp only [collapseCli] at hx
    split_ifs at hx
    · exact List.mem_cons_of_mem _ (ih true x hx)
    · rcases List.mem_cons.mp hx with rfl | hx'
      · exact List.mem_cons_self _ _
      · exact List.mem_cons_of_mem _ (ih true x hx')
    · rcases List.mem_cons.mp hx with rfl | hx'
      · exact List.mem_cons_self _ _
      · exact List.mem_cons_of_mem _ (ih false x hx')

theorem collapseQuick_subset (l : List Char) (b : Bool) :
    ∀ c ∈ collapseQuick l b, c ∈ l := by
  induction l generalizing b with
  | nil => simp [collapseQuick]
  | cons c rest ih =>
    intro x hx
    simp only [collapseQuick] at hx
    split_ifs at hx
    · exact List.mem_cons_of_mem _ (ih true x hx)
    · rcases List.mem_cons.mp hx with rfl | hx'
      · exact List.mem_cons_self _ _
      · exact List.mem_cons_of_mem _ (ih true x hx')
    · rcases List.mem_cons.mp hx with rfl | hx'
      · exact List.mem_cons_self _ _
      · exact List.mem_cons_of_mem _ (ih false x hx')

theorem rustTrim_subset (l : List Char) : ∀ c ∈ rustTrim l, c ∈ l := by
  intro c hc
  unfold rustTrim at hc
  rw [List.mem_reverse] at hc
  have h1 := (List.dropWhile_sublist (l := (l.dropWhile rustIsWhitespace).reverse)
    (p := rustIsWhitespace)).subset hc
  rw [List.mem_reverse] at h1
  exact (List.dropWhile_sublist (l := l) (p := rustIsWhitespace)).subset h1

theorem containsChars_false_of_amp (needle hay : List Char)
    (hn : '&' ∈ needle) (hh : '&' ∉ hay) :
    containsChars needle hay = false := by
  induction hay with
  | nil =>
    cases needle with
    | nil => simp at hn
    | cons a as => simp [containsChars]
  | cons c rest ih =>
    have hc : '&' ∉ rest := fun h => hh (List.mem_cons_of_mem _ h)
    have hpre : needle.isPrefixOf (c :: rest) = false := by
      cases hb : needle.isPrefixOf (c :: rest) with
      | false => rfl
      | true => exact absurd ((List.isPrefixOf_iff_prefix.mp hb).subset hn) hh
    simp only [containsChars, hpre, Bool.false_or]
    exact ih hc

theorem nnws_eq_true_iff (c : Char) :
    nnws c = true ↔ (rustIsWhitespace c = true ∧ c ≠ '\n') := by
  simp [nnws, Bool.and_eq_true, bne_iff_ne]

theorem collapseCli_count_newline (l : List Char) (b : Bool) :
    (collapseCli l b).count '\n' = l.count '\n' := by
  induction l generalizing b with
  | nil => rfl
  | cons c rest ih =>
    simp only [collapseCli]
    split_ifs with h1 h2
    · rw [ih true, List.count_cons]
      simp [h1.2]
    · rw [List.count_cons, List.count_cons, ih true]
    · rw [List.count_cons, List.count_cons, ih false]

theorem collapseCli_head_not_nnws (l : List Char) :
    ∀ c, (collapseCli l true).head? = some c → nnws c = false := by
  induction l with
  | nil => intro c h; simp [collapseCli] at h
  | cons a rest ih =>
    intro c h
    simp only [collapseCli] at h
    split_ifs at h with h1
    · exact ih c h
    · simp only [List.head?_cons, Option.some.injEq] at h
      rw [← h]
      cases hb : nnws a with
      | false => rfl
      | true => exact absurd ((nnws_eq_true_iff a).mp hb) h1

theorem collapseCli_chain (l : List Char) (b : Bool) :
    List.Chain' (fun a c => nnws a = true → nnws c = false) (collapseCli l b) := by
  induction l generalizing b with
  | nil => simp [collapseCli]
  | cons c rest ih =>
    simp only [collapseCli]
    split_ifs with h1 h2
    · exact ih true
    · rw [List.chain'_cons']
      refine ⟨fun y hy _ => collapseCli_head_not_nnws rest y hy, ih true⟩
    · rw [List.chain'_cons']
      refine ⟨fun y hy hcnn => ?_, ih false⟩
      exact absurd ((nnws_eq_true_iff c).mp hcnn) h1

theorem collapseQuick_head_not_ws (l : List Char) :
    ∀ c, (collapseQuick l true).head? = some c → rustIsWhitespace c = false := by
  induction l with
  | nil => intro c h; simp [collapseQuick] at h
  | cons a rest ih =>
    intro c h
    simp only [collapseQuick] at h
    split_ifs at h with h1
    · exact ih c h
    · simp only [List.head?_cons, Option.some.injEq] at h
      rw [← h]
      cases hb : rustIsWhitespace a with
      | false => rfl
      | true => exact absurd hb h1

theorem collapseQuick_chain (l : List Char) (b : Bool) :
    List.Chain' (fun a c => rustIsWhitespace a = true → rustIsWhitespace c = false)
      (collapseQuick l b) := by
  induction l generalizing b with
  | nil => simp [collapseQuick]
  | cons c rest ih =>
    simp only [collapseQuick]
    split_ifs with h1 h2
    · exact ih true
    · rw [List.chain'_cons']
      refine ⟨fun y hy _ => collapseQuick_head_not_ws rest y hy, ih true⟩
    · rw [List.chain'_cons']
      refine ⟨fun y hy hcnn => absurd hcnn h1, ih false⟩

theorem dropWhile_head_not {α : Type} (p : α → Bool) (l : List α) :
    ∀ c, (l.dropWhile p).head? = some c → p c = false := by
  induction l with
  | nil => intro c h; simp at h
  | cons a rest ih =>
    intro c h
    cases hb : p a with
    | true =>
      rw [List.dropWhile_cons, if_pos hb] at h
      exact ih c h
    | false =>
      rw [List.dropWhile_cons, if_neg (by simp [hb])] at h
      simp only [List.head?_cons, Option.some.injEq] at h
      rw [← h]; exact hb

theorem dropWhile_isSuffix {α : Type} (p : α → Bool) (l : List α) :
    l.dropWhile p <:+ l := by
  induction l with
  | nil => exact List.suffix_refl _
  | cons a rest ih =>
    cases hb : p a with
    | true =>
      rw [List.dropWhile_cons, if_pos hb]
      exact ih.trans (List.suffix_cons a rest)
    | false =>
      rw [List.dropWhile_cons, if_neg (by simp [hb])]

theorem rustTrim_noEdgeWs (l : List Char) : noEdgeWs (rustTrim l) := by
  constructor
  · intro c hc
    unfold rustTrim at hc
    have hpre : ((l.dropWhile rustIsWhitespace).reverse.dropWhile
        rustIsWhitespace).reverse <+: l.dropWhile rustIsWhitespace := by
      have hs := dropWhile_isSuffix rustIsWhitespace
        (l.dropWhile rustIsWhitespace).reverse
      have := List.reverse_prefix.mpr hs
      rwa [List.reverse_reverse] at this
    obtain ⟨t, ht⟩ := hpre
    cases hout : ((l.dropWhile rustIsWhitespace).reverse.dropWhile
        rustIsWhitespace).reverse with
    | nil => rw [hout] at hc; simp at hc
    | cons a out' =>
      rw [hout] at hc ht
      simp only [List.head?_cons, Option.some.injEq] at hc
      have hm : (l.dropWhile rustIsWhitespace).head? = some a := by
        rw [← ht]; rfl
      rw [← hc]
      exact dropWhile_head_not rustIsWhitespace l a hm
  · intro c hc
    unfold rustTrim at hc
    rw [List.getLast?_reverse] at hc
    exact dropWhile_head_not rustIsWhitespace
      (l.dropWhile rustIsWhitespace).reverse c hc

deriving instance DecidableEq for Except

/-! ### Concrete sample data used by the closed theorems and witnesses -/

/-- A store holding a single soft-deleted note. -/
def softDelDb : List Item :=
  [⟨"1", "secret note", some "the password is hunter2", "note", none, 0,
    some "2024-01-01"⟩]

/-- A store with eleven live notes whose titles all match the query `"x"`. -/
def elevenDb : List Item :=
  List.replicate 11 ⟨"i", "x", none, "note", none, 0, none⟩

/-- A book / section / three-notes store for the quick-search scenarios:
`n1` matches the query `"cake"` by title, `n2` only via content (FTS), and
`n3` only through its parent section living under the matching book. -/
def sampleBook : Item := ⟨"b", "Cake recipes", none, "book", none, 0, none⟩

def sampleSection : Item := ⟨"s", "Frosting", none, "section", some "b", 1, none⟩

def sampleN1 : Item :=
  ⟨"n1", "Chocolate cake", some "flour and cocoa", "note", some "s", 2, none⟩

def sampleN2 : Item :=
  ⟨"n2", "Shopping", some "buy cake mix", "note", some "s", 3, none⟩

def sampleN3 : Item :=
  ⟨"n3", "Unrelated", some "nothing here", "note", some "s", 4, none⟩

def sampleDb : List Item :=
  [sampleBook, sampleSection, sampleN1, sampleN2, sampleN3]

/-- The external FTS index outcome for `sampleDb` and the query `"cake"`:
`n1` and `n2` match (rank −2), nothing else does. -/
def sampleFts : Item → Option Int :=
  fun i => if i.id == "n1" || i.id == "n2" then some (-2) else none

def sampleNoteA : Note := ⟨"idA", "Twin", "", "note", none⟩

def sampleNoteB : Note := ⟨"idB", "Twin", "", "note", none⟩

/-- The five-event burst of the spec's debounce scenario: all events within
50 ms of the first, which itself arrives well after worker start. -/
def burstEvents : List FsEvent :=
  [⟨some "config.json", 200⟩, ⟨some "config.toml", 210⟩,
   ⟨some "config.json", 230⟩, ⟨some "config.json", 240⟩,
   ⟨some "config.json", 250⟩]

/-! ### Claim theorems -/

/-- **C1** (code bug): the claim says soft-deleted items are excluded from
every search path and from the tree.  The quick app's union search does
exclude them, but the CLI `search_notes` fallback tier and `get_all_notes`
(the tree/list data source) carry no `deleted_at` filter: on a store whose
only row is a soft-deleted note, the CLI search for `"password"` (with the
external FTS tier unavailable) and the tree source both return that note,
while the quick search correctly returns nothing. -/
theorem C1_soft_deleted_leaks_from_cli_paths :
    (∀ i ∈ softDelDb, i.deleted_at ≠ none) ∧
    cliSearchNotes (.error "fts unavailable") softDelDb "password" =
      .ok [⟨"1", "secret note", "the password is hunter2", "note", none⟩] ∧
    getAllNotes softDelDb =
      [⟨"1", "secret note", "the password is hunter2", "note", none⟩] ∧
    quickRows softDelDb "password" (fun _ => some 0) = [] := by decide

/-- **C2** (counterexample): `strip_html` output can contain literal `<`/`>`
(decoded from `&lt;`/`&gt;`) and raw handled entity codes (sequential
single-pass replacement turns `&amp;nbsp;` into a raw `&nbsp;`). -/
theorem C2_counterexample :
    cliStripHtml "&lt;" = "<" ∧ '<' ∈ (cliStripHtml "&lt;").data ∧
    quickStripHtml "&gt;" = ">" ∧
    cliStripHtml "&amp;nbsp;" = "&nbsp;" ∧
    containsChars "&nbsp;".data (cliStripHtml "&amp;nbsp;").data = true := by
  decide

/-- **C5** (counterexample): the simpler CLI search applies no result cap —
on a store with eleven matching notes it returns all eleven rows, not at
most ten (its SQL has no `LIMIT` clause). -/
theorem C5_counterexample_cli_no_cap :
    cliSearchNotes (.error "fts unavailable") elevenDb "x" =
      .ok (elevenDb.map toNote) ∧
    (elevenDb.map toNote).length = 11 ∧ ¬(elevenDb.map toNote).length ≤ 10 := by
  decide

/-- **C6** (counterexample): the collapse keeps the run's *first* whitespace
character rather than substituting a space — `"A\t\tB"` normalizes to
`"A\tB"`, not `"A B"`; and the quick variant does collapse newline runs
(`"A\n\nB"` loses a newline), contrary to the claim. -/
theorem C6_counterexample :
    cliStripHtml "A\t\tB" = "A\tB" ∧ cliStripHtml "A\t\tB" ≠ "A B" ∧
    quickStripHtml "A\n\nB" = "A\nB" ∧
    ((quickStripHtml "A\n\nB").data.count '\n' ≠ ("A\n\nB").data.count '\n') := by
  decide

/-- **C10** (code bug): `truncate` and the 80-byte preview slice are not
total — both measure in bytes and slice at a byte index, and Rust byte
slicing panics when the index falls inside a multi-byte character.  Five
two-byte `α`s (10 bytes) truncated to `maxLen = 8` cuts at byte 5, inside
the third `α` (`none` = panic); a 41-character, 81-byte content cuts its
preview at byte 80, inside the last `α`. -/
theorem C10_truncate_preview_panic :
    rustTruncate ⟨List.replicate 5 'α'⟩ 8 = none ∧
    utf8Len (List.replicate 5 'α') = 10 ∧
    quickPreview ⟨'a' :: List.replicate 40 'α'⟩ = none ∧
    rustTruncate "abcdefghij" 5 = some "ab..." := by decide

/-- **C2** (amended): for inputs containing no `&` character, both
`strip_html` variants produce output with no literal `<` or `>` and no
occurrence of any handled entity code.  (The unamended claim fails because
entity decoding itself reintroduces `<`/`>` and, via sequential `&amp;`
replacement, raw entity codes.) -/
theorem C2_amended_no_amp (s : String) (h : '&' ∉ s.data) :
    ('<' ∉ cliStripHtmlL s.data ∧ '>' ∉ cliStripHtmlL s.data ∧
      ∀ ent ∈ entityCodes,
        containsChars ent.data (cliStripHtmlL s.data) = false) ∧
    ('<' ∉ quickStripHtmlL s.data ∧ '>' ∉ quickStripHtmlL s.data ∧
      ∀ ent ∈ entityCodes,
        containsChars ent.data (quickStripHtmlL s.data) = false) := by
  have hamp : '&' ∉ stripTags s.data false :=
    fun hc => h (stripTags_subset s.data false '&' hc)
  have hdec : decodeEntities (stripTags s.data false) = stripTags s.data false :=
    decodeEntities_no_amp _ hamp
  constructor
  · have hsub : ∀ c ∈ cliStripHtmlL s.data, c ∈ stripTags s.data false := by
      intro c hc
      unfold cliStripHtmlL at hc
      have h1 := rustTrim_subset
        (collapseCli (decodeEntities (stripTags s.data false)) false) c hc
      have h2 := collapseCli_subset
        (decodeEntities (stripTags s.data false)) false c h1
      rwa [hdec] at h2
    refine ⟨fun hc => (stripTags_no_angle s.data false).1 (hsub _ hc),
      fun hc => (stripTags_no_angle s.data false).2 (hsub _ hc), ?_⟩
    intro ent hent
    refine containsChars_false_of_amp ent.data (cliStripHtmlL s.data) ?_
      (fun hc => hamp (hsub _ hc))
    fin_cases hent <;> decide
  · have hsub : ∀ c ∈ quickStripHtmlL s.data, c ∈ stripTags s.data false := by
      intro c hc
      unfold quickStripHtmlL at hc
      have h1 := rustTrim_subset
        (collapseQuick (decodeEntities (stripTags s.data false)) false) c hc
      have h2 := collapseQuick_subset
        (decodeEntities (stripTags s.data false)) false c h1
      rwa [hdec] at h2
    refine ⟨fun hc => (stripTags_no_angle s.data false).1 (hsub _ hc),
      fun hc => (stripTags_no_angle s.data false).2 (hsub _ hc), ?_⟩
    intro ent hent
    refine containsChars_false_of_amp ent.data (quickStripHtmlL s.data) ?_
      (fun hc => hamp (hsub _ hc))
    fin_cases hent <;> decide

/-- Witness for the amended C2 at a concrete ampersand-free input. -/
theorem C2_amended_no_amp_witness :
    ('<' ∉ cliStripHtmlL "<b>x</b> y".data ∧
      '>' ∉ cliStripHtmlL "<b>x</b> y".data ∧
      ∀ ent ∈ entityCodes,
        containsChars ent.data (cliStripHtmlL "<b>x</b> y".data) = false) ∧
    ('<' ∉ quickStripHtmlL "<b>x</b> y".data ∧
      '>' ∉ quickStripHtmlL "<b>x</b> y".data ∧
      ∀ ent ∈ entityCodes,
        containsChars ent.data (quickStripHtmlL "<b>x</b> y".data) = false) :=
  C2_amended_no_amp "<b>x</b> y" (by decide)

/-- **C3** (confirmed): the two-tier CLI search uses the primary tier's rows
as the entire result set whenever that tier succeeds non-empty; the
substring fallback (case-insensitive `LIKE` over title and content, ordered
by `sort_order`) is consulted exactly when the primary tier errors or
returns zero rows, and a primary-tier failure is never surfaced as an
error. -/
theorem C3_two_tier_selection :
    (∀ db q (x : Note) l, cliSearchNotes (.ok (x :: l)) db q = .ok (x :: l)) ∧
    (∀ db q, cliSearchNotes (.ok []) db q = .ok (cliFallback db q)) ∧
    (∀ db q e, cliSearchNotes (.error e) db q = .ok (cliFallback db q)) ∧
    (∀ db q, (cliFallbackItems db q).Pairwise itemLe) :=
  ⟨fun _ _ _ _ => rfl, fun _ _ => rfl, fun _ _ _ => rfl,
   fun db q =>
     List.Pairwise.filter (likeCond q) (List.sorted_insertionSort itemLe db)⟩

/-- **C4** (confirmed): a row of the richer search gets `match_type`
`"parent"` exactly when it comes from the `parent_matches` set (priority
2); otherwise `"title"` exactly when the lowercased note title contains the
lowercased query, and `"content"` only after that title check fails — so a
content-matched note whose title also contains the query reports
`"title"`. -/
theorem C4_match_type_classification (db : List Item) (q : String)
    (fts : Item → Option Int) (r : QRow) :
    (r ∈ parentMatches db (lowerStr q) fts →
      matchType r.priority r.item.title (lowerStr q) = "parent") ∧
    (r ∈ ftsRows db fts →
      containsChars (lowerStr q).data (lowerStr r.item.title).data = true →
      matchType r.priority r.item.title (lowerStr q) = "title") ∧
    (r ∈ ftsRows db fts →
      containsChars (lowerStr q).data (lowerStr r.item.title).data = false →
      matchType r.priority r.item.title (lowerStr q) = "content") := by
  have hp : r ∈ parentMatches db (lowerStr q) fts → r.priority = 2 := by
    intro hr
    simp only [parentMatches, List.mem_map] at hr
    obtain ⟨i, _, rfl⟩ := hr
    rfl
  have hf : r ∈ ftsRows db fts → r.priority = 1 := by
    intro hr
    simp only [ftsRows, List.mem_map] at hr
    obtain ⟨i, _, rfl⟩ := hr
    rfl
  refine ⟨fun hr => ?_, fun hr hc => ?_, fun hr hc => ?_⟩
  · rw [matchType, if_pos (hp hr)]
  · rw [matchType, if_neg (by rw [hf hr]; decide), if_pos hc]
  · rw [matchType, if_neg (by rw [hf hr]; decide), if_neg (by simp [hc])]

/-- Witness for C4 on the sample store: `n3` (reachable only through its
matching book grandparent) classifies `"parent"`, `n1` (FTS row with
matching title) `"title"`, `n2` (FTS row matched only on content)
`"content"`. -/
theorem C4_match_type_witness :
    matchType (mkRow sampleDb sampleN3 2 0).priority
        (mkRow sampleDb sampleN3 2 0).item.title (lowerStr "cake") = "parent" ∧
    matchType (mkRow sampleDb sampleN1 1 (-2)).priority
        (mkRow sampleDb sampleN1 1 (-2)).item.title (lowerStr "cake") = "title" ∧
    matchType (mkRow sampleDb sampleN2 1 (-2)).priority
        (mkRow sampleDb sampleN2 1 (-2)).item.title (lowerStr "cake") = "content" :=
  ⟨(C4_match_type_classification sampleDb "cake" sampleFts _).1 (by decide),
   (C4_match_type_classification sampleDb "cake" sampleFts _).2.1
     (by decide) (by decide),
   (C4_match_type_classification sampleDb "cake" sampleFts _).2.2
     (by decide) (by decide)⟩

/-- **C5** (amended): the richer variant orders its unioned result set by
`(priority, sort_rank)` ascending and truncates it to at most 15 rows; the
simpler CLI search applies no row cap at all (its SQL has no `LIMIT`),
as the counterexample shows. -/
theorem C5_amended_quick_cap_and_order (db : List Item) (q : String)
    (fts : Item → Option Int) :
    (quickRows db q fts).length ≤ 15 ∧ (quickRows db q fts).Pairwise rowLe := by
  unfold quickRows
  split_ifs with h
  · simp
  · exact ⟨List.length_take_le 15 _,
      List.Pairwise.sublist (List.take_sublist 15 _)
        (List.sorted_insertionSort rowLe _)⟩

/-- **C6** (amended): the collapse phase of the CLI `strip_html` preserves
every newline and never leaves two adjacent non-newline whitespace
characters (a collapsed run keeps its own first character, which need not
be a space — see the counterexample); the quick variant collapses across
newlines too, leaving no two adjacent whitespace characters; both variants
trim the final result; and the spec's entity example normalizes to
`"A B"`. -/
theorem C6_amended_collapse_semantics :
    (∀ l b, (collapseCli l b).count '\n' = l.count '\n') ∧
    (∀ l b, List.Chain' (fun a c => nnws a = true → nnws c = false)
      (collapseCli l b)) ∧
    (∀ l b, List.Chain'
      (fun a c => rustIsWhitespace a = true → rustIsWhitespace c = false)
      (collapseQuick l b)) ∧
    (∀ s : String,
      noEdgeWs (cliStripHtmlL s.data) ∧ noEdgeWs (quickStripHtmlL s.data)) ∧
    cliStripHtml "<p>A&nbsp;&nbsp;B</p>" = "A B" ∧
    quickStripHtml "<p>A&nbsp;&nbsp;B</p>" = "A B" :=
  ⟨collapseCli_count_newline, collapseCli_chain, collapseQuick_chain,
   fun s =>
     ⟨by unfold cliStripHtmlL; exact rustTrim_noEdgeWs _,
      by unfold quickStripHtmlL; exact rustTrim_noEdgeWs _⟩,
   by decide, by decide⟩

/-- Witness for the amended C6 at a concrete input. -/
theorem C6_amended_witness :
    (collapseCli "a\t \nb".data false).count '\n' =
      ("a\t \nb".data).count '\n' :=
  C6_amended_collapse_semantics.1 _ _

/-- **C7** (confirmed): `get_item_path` walks `parent_id` prepending each
visited title, stops at an item with no parent or at a missing row (a
dangling parent terminates the walk rather than erroring), and joins the
titles with `" / "` root-first: a three-level chain yields
`Book / Section / Note` (here with arbitrary titles `bt / st / nt`), a
root item yields its own title, and an item whose parent id is absent from
the store yields just its own title. -/
theorem C7_breadcrumb_walk (bt st nt rt dt : String) :
    getItemPath
        [⟨"b", bt, none, "book", none, 0, none⟩,
         ⟨"s", st, none, "section", some "b", 1, none⟩,
         ⟨"n", nt, some "c", "note", some "s", 2, none⟩] "n"
      = String.intercalate " / " [bt, st, nt] ∧
    getItemPath [⟨"r", rt, none, "book", none, 0, none⟩] "r" = rt ∧
    getItemPath [⟨"d", dt, some "x", "note", some "missing", 3, none⟩] "d"
      = dt := by
  refine ⟨?_, ?_, ?_⟩ <;>
    simp [getItemPath, pathPartsAux, lookupTP, List.find?, String.intercalate,
      String.intercalate.go]

/-- **C8** (confirmed): `select_note` returns none for zero candidates,
the single candidate unconditionally for one, the indexed candidate for a
1-based index within `[1, len]`, none with a range-error report for an
out-of-range index, and none with the full candidate listing when several
candidates come with no index — a reporting path observably distinct from
the range error. -/
theorem C8_selector (x y : Note) (rest : List Note) (num : Option Nat)
    (n : Nat) :
    selectNote [] num = (none, .silent) ∧
    selectNote [x] num = (some x, .silent) ∧
    selectNote (x :: y :: rest) none =
      (none, .multiplePrompt
        ((x :: y :: rest).map (fun nt => (nt.title, nt.id)))) ∧
    (1 ≤ n → n ≤ (x :: y :: rest).length →
      selectNote (x :: y :: rest) (some n) =
        ((x :: y :: rest)[n - 1]?, .silent)) ∧
    (n = 0 ∨ (x :: y :: rest).length < n →
      selectNote (x :: y :: rest) (some n) =
        (none, .invalidNumber n (x :: y :: rest).length)) ∧
    selectNote [x, y] (some 1) = (some x, .silent) ∧
    selectNote [x, y] (some 3) = (none, .invalidNumber 3 2) ∧
    (∀ len cands,
      SelectMsg.invalidNumber n len ≠ SelectMsg.multiplePrompt cands) := by
  have hne : ¬(x :: y :: rest).isEmpty = true := by simp
  have hlen : ¬(x :: y :: rest).length = 1 := by simp
  refine ⟨rfl, rfl, ?_, ?_, ?_, rfl, rfl, fun len cands h => by cases h⟩
  · unfold selectNote
    rw [if_neg hne, if_neg hlen]
  · intro h1 h2
    unfold selectNote
    rw [if_neg hne, if_neg hlen]
    show (if n > 0 ∧ n ≤ (x :: y :: rest).length
        then ((x :: y :: rest)[n - 1]?, SelectMsg.silent)
        else (none, SelectMsg.invalidNumber n (x :: y :: rest).length))
      = ((x :: y :: rest)[n - 1]?, SelectMsg.silent)
    rw [if_pos (show n > 0 ∧ n ≤ (x :: y :: rest).length from ⟨h1, h2⟩)]
  · intro h
    unfold selectNote
    rw [if_neg hne, if_neg hlen]
    show (if n > 0 ∧ n ≤ (x :: y :: rest).length
        then ((x :: y :: rest)[n - 1]?, SelectMsg.silent)
        else (none, SelectMsg.invalidNumber n (x :: y :: rest).length))
      = (none, SelectMsg.invalidNumber n (x :: y :: rest).length)
    have hno : ¬(n > 0 ∧ n ≤ (x :: y :: rest).length) := by
      rcases h with h | h
      · omega
      · intro hc; omega
    rw [if_neg hno]

/-- Witness for C8 at concrete candidate lists. -/
theorem C8_selector_witness :
    selectNote [sampleNoteA, sampleNoteB] (some 2) =
      (some sampleNoteB, .silent) ∧
    selectNote [sampleNoteA, sampleNoteB] (some 9) =
      (none, .invalidNumber 9 2) := by
  constructor
  · have h := (C8_selector sampleNoteA sampleNoteB [] (some 2) 2).2.2.2.1
      (by decide) (by decide)
    simpa using h
  · have h := (C8_selector sampleNoteA sampleNoteB [] (some 9) 9).2.2.2.2.1
      (Or.inr (by decide))
    simpa using h

/-- **C9** (confirmed): an incoming filesystem event emits a notification
iff its filename matches a watched config filename and `now − lastEmit`
exceeds the 100 ms window, in which case `lastEmit` becomes `now`; all
other events leave the state unchanged and emit nothing.  On the spec's
scenario (five matching events within 50 ms of the first at t=200) exactly
one notification is emitted; a sixth matching event 150 ms after the first
yields a second; a non-matching sixth yields nothing more. -/
theorem C9_debounce_machine (w : String → Bool) (s : Nat) (e : FsEvent) :
    ((debounceStep w s e).2 = true ↔
      ∃ f, e.filename = some f ∧ w f = true ∧ 100 < e.time - s) ∧
    ((debounceStep w s e).2 = true → (debounceStep w s e).1 = e.time) ∧
    ((debounceStep w s e).2 = false → (debounceStep w s e).1 = s) ∧
    debounceRun watchedMain 0 burstEvents = (200, 1) ∧
    debounceRun watchedMain 0 (burstEvents ++ [⟨some "config.json", 350⟩])
      = (350, 2) ∧
    debounceRun watchedMain 0 (burstEvents ++ [⟨some "other.txt", 350⟩])
      = (200, 1) := by
  refine ⟨?_, ?_, ?_, by decide, by decide, by decide⟩ <;>
    · unfold debounceStep
      cases hf : e.filename with
      | none => simp
      | some f =>
        simp only []
        split_ifs with h1 h2 <;> simp_all [Nat.lt_iff_add_one_le]

/-- Witness for C9: a matching event well past the window emits. -/
theorem C9_debounce_witness :
    (debounceStep watchedMain 0 ⟨some "config.json", 200⟩).2 = true :=
  (C9_debounce_machine watchedMain 0 ⟨some "config.json", 200⟩).1.mpr
    ⟨"config.json", rfl, rfl, by decide⟩
end IrisNotes
